import Mathlib

/-!
Verification of the stereoscope core: the tagged provider-selection algebra
(`tagged` package), the ordered multi-source detection protocol
(`pkg/image/provider.go`), the cleanup lifecycle (`runtime/execution_context.go`)
and the platform-aware manifest resolution (`pkg/image/containerd/daemon_provider.go`),
shallowly embedded in Lean.
-/

namespace Stereoscope

/-! ## Tagged collection (src/tagged)

`Value[T]` holds an arbitrary value with associated tags; `Values[T]` is an
ordered list of such pairs.  The operations below are translated from the
Go source (`Select`, `Remove`, `Join`, `Sort`, `HasTag`, `HasValue`,
`Collect`).  For the pure model the element comparison `isEqual` is
instantiated at types where Go's `==` is total structural equality, so it
is modelled by decidable propositional equality; the partial behaviour of
`isEqual` on non-comparable dynamic types is modelled separately below
(see the `GoVal` section). -/

structure TaggedValue (T : Type) where
  value : T
  tags : List String
deriving DecidableEq

abbrev Values (T : Type) := List (TaggedValue T)

/-- `Value.HasTag`: the value has a tag matching one or more of the provided
arguments (outer loop over the argument tags, inner loop over the value's tags). -/
def TaggedValue.hasTag {T : Type} (t : TaggedValue T) (tags : List String) : Bool :=
  tags.any fun tag => t.tags.any fun existing => tag == existing

/-- `Values.HasTag`: some element has a matching tag. -/
def Values.hasTag {T : Type} (t : Values T) (tags : List String) : Bool :=
  t.any fun tagged => tagged.hasTag tags

/-- `Values.HasValue`: at least one of the provided values is present in the set
(comparison by `isEqual`, here total structural equality). -/
def Values.hasValue {T : Type} [DecidableEq T] (t : Values T) (vals : List T) : Bool :=
  t.any fun tagged => vals.any fun v => decide (tagged.value = v)

/-- `Values.Select`: a new set of values matching any of the provided tags;
an empty tag-argument list yields the empty collection. -/
def Values.Select {T : Type} (t : Values T) (tags : List String) : Values T :=
  if tags.length = 0 then [] else t.filter fun tagged => tagged.hasTag tags

/-- `Values.Remove`: a new set of values excluding those with any of the
provided tags; an empty tag-argument list is the identity. -/
def Values.Remove {T : Type} (t : Values T) (tags : List String) : Values T :=
  if tags.length = 0 then t else t.filter fun tagged => !(tagged.hasTag tags)

/-- `Values.Collect`: project to the underlying values. -/
def Values.Collect {T : Type} (t : Values T) : List T :=
  t.map fun v => v.value

/-- `Values.Join`: append the provided tagged values that are not already
present in the receiver (presence tested with `HasValue` against the
receiver), preserving order; empty argument is the identity. -/
def Values.Join {T : Type} [DecidableEq T] (t : Values T) (taggedValues : List (TaggedValue T)) : Values T :=
  if taggedValues.length = 0 then t
  else t ++ taggedValues.filter fun v => !(t.hasValue [v.value])

/-- One pass of `Values.Sort` for a single tag: walk the original collection
and append each element carrying the tag whose value is not already placed. -/
def Values.sortPass {T : Type} [DecidableEq T] (tag : String) : Values T → Values T → Values T
  | [], out => out
  | existing :: rest, out =>
    if existing.hasTag [tag] then
      if out.hasValue [existing.value] then Values.sortPass tag rest out
      else Values.sortPass tag rest (out ++ [existing])
    else Values.sortPass tag rest out

/-- The outer loop of `Values.Sort` over the requested tags. -/
def Values.sortTags {T : Type} [DecidableEq T] (t : Values T) : List String → Values T → Values T
  | [], out => out
  | tag :: rest, out => Values.sortTags t rest (Values.sortPass tag t out)

/-- `Values.Sort` (named `sort` since `Sort` is reserved in Lean): order the
entries by the provided tags, then append all entries carrying none of the
requested tags in original order; empty argument is the identity. -/
def Values.sort {T : Type} [DecidableEq T] (t : Values T) (tags : List String) : Values T :=
  if tags.length = 0 then t
  else Values.sortTags t tags [] ++ t.filter fun v => !(v.hasTag tags)

/-! ## The canonical selection pipeline (src/tagged/taggest_cataloger_test.go, `sel`) -/

/-- The selection request: base narrowing, further selection, removal and
re-addition tag sets (Go struct `req`). -/
structure req where
  Base : List String
  Select : List String
  Remove : List String
  Add : List String
deriving DecidableEq

/-- `sel`: apply base-Select, then select-Select, then Remove, then Join of the
items re-selected by the add tags from the original unfiltered collection,
each step only when its tag list is non-empty, and collect the values. -/
def sel {T : Type} [DecidableEq T] (allValues : Values T) (r : req) : List T :=
  let values := allValues
  let values := if 0 < r.Base.length then values.Select r.Base else values
  let values := if 0 < r.Select.length then values.Select r.Select else values
  let values := if 0 < r.Remove.length then values.Remove r.Remove else values
  let values := if 0 < r.Add.length then values.Join (allValues.Select r.Add) else values
  values.Collect

/-- An item with a tag matching `x` matches any tag list containing `x`. -/
lemma hasTag_of_mem {T : Type} (item : TaggedValue T) (x : String) (tags : List String)
    (hx : x ∈ tags) (h : item.hasTag [x] = true) : item.hasTag tags = true := by
  simp only [TaggedValue.hasTag, List.any_eq_true, List.mem_singleton] at h ⊢
  obtain ⟨tag, htag, he⟩ := h
  exact ⟨x, hx, by simpa [htag] using he⟩

/-- The value of any item passed to `Join` is present in the result: either an
equal value was already in the receiver, or the item itself is appended. -/
lemma collect_join_mem {T : Type} [DecidableEq T] (vs : Values T)
    (adds : List (TaggedValue T)) (item : TaggedValue T) (h : item ∈ adds) :
    item.value ∈ (vs.Join adds).Collect := by
  have hne : ¬ adds.length = 0 := by
    cases adds with
    | nil => cases h
    | cons a l => simp
  rw [Values.Join, if_neg hne]
  cases hv : vs.hasValue [item.value] with
  | true =>
    simp only [Values.hasValue, List.any_eq_true, List.mem_singleton,
      decide_eq_true_eq] at hv
    obtain ⟨u, hu, v, hveq, huv⟩ := hv
    subst hveq
    exact List.mem_map.mpr ⟨u, List.mem_append_left _ hu, huv⟩
  | false =>
    refine List.mem_map.mpr ⟨item, List.mem_append_right _ ?_, rfl⟩
    exact List.mem_filter.mpr ⟨h, by simp [hv]⟩

/-- C4: every item of the original collection carrying a tag in the add set is
present in the pipeline's result, even if it was excluded by base/select
narrowing or by the remove set — additions re-select from the original,
unfiltered collection. -/
theorem sel_add_restores {T : Type} [DecidableEq T] (allValues : Values T) (r : req)
    (x : String) (item : TaggedValue T)
    (hx : x ∈ r.Add) (hmem : item ∈ allValues) (htag : item.hasTag [x] = true) :
    item.value ∈ sel allValues r := by
  have hAdd : 0 < r.Add.length := List.length_pos.mpr (List.ne_nil_of_mem hx)
  have hAddNe : ¬ r.Add.length = 0 := Nat.pos_iff_ne_zero.mp hAdd
  have hitem : item ∈ allValues.Select r.Add := by
    rw [Values.Select, if_neg hAddNe]
    exact List.mem_filter.mpr ⟨hmem, hasTag_of_mem item x r.Add hx htag⟩
  simp only [sel, if_pos hAdd]
  exact collect_join_mem _ _ _ hitem

/-- Witness for C4 on the spec's scenario: `js-2` lacks the base tag `i` but is
restored by `+js-2`. -/
theorem sel_add_restores_witness :
    "js-2" ∈ (["js-2"] : List String) ∧
    (⟨"js-2", ["d", "js", "js-2"]⟩ : TaggedValue String) ∈
      ([⟨"js-1", ["i", "js", "js-1"]⟩, ⟨"js-2", ["d", "js", "js-2"]⟩,
        ⟨"jv-1", ["i", "d", "jv", "jv-1"]⟩, ⟨"py-1", ["i", "d", "py", "py-1"]⟩] : Values String) ∧
    (⟨"js-2", ["d", "js", "js-2"]⟩ : TaggedValue String).hasTag ["js-2"] = true ∧
    "js-2" ∈ sel
      ([⟨"js-1", ["i", "js", "js-1"]⟩, ⟨"js-2", ["d", "js", "js-2"]⟩,
        ⟨"jv-1", ["i", "d", "jv", "jv-1"]⟩, ⟨"py-1", ["i", "d", "py", "py-1"]⟩] : Values String)
      ⟨["i"], [], ["py-1"], ["js-2"]⟩ :=
  ⟨by decide, by decide, by decide,
    sel_add_restores _ ⟨["i"], [], ["py-1"], ["js-2"]⟩ "js-2" ⟨"js-2", ["d", "js", "js-2"]⟩
      (by decide) (by decide) (by decide)⟩

/-- C3: `Select` with an empty tag-argument list returns the empty collection,
while `Remove` with an empty tag-argument list returns the collection
unchanged (asymmetric empty-argument semantics). -/
theorem select_empty_remove_empty {T : Type} (R : Values T) :
    R.Select [] = [] ∧ R.Remove [] = R := by
  constructor <;> simp [Values.Select, Values.Remove]

/-! ## Detection protocol (src/pkg/image/provider.go, `Detect`)

A provider invocation is modelled by the pair it returns: an optional image
and an optional error.  The image carries the outcome of its `Read()`
finalize step.  Go error values are modelled by a small error tree:
`errors.Join` of a non-empty list and `fmt.Errorf` wrapping with `%w`.
`Detect` additionally returns a trace of events — which provider indices
were invoked and which images were read — so that the never-invoked /
read-exactly-once parts of the contract are statable. -/

structure DImage where
  id : Nat
  readErr : Option String
deriving DecidableEq

structure ProvResult where
  img : Option DImage
  err : Option String
deriving DecidableEq

inductive GoErr where
  | msg : String → GoErr
  | wrap : String → Option GoErr → GoErr
  | joined : List GoErr → GoErr

/-- `errors.Join`: nil when no errors were recorded, else one joined error. -/
def joinErrs : List GoErr → Option GoErr
  | [] => none
  | e :: rest => some (.joined (e :: rest))

inductive Ev where
  | provide : Nat → Ev
  | read : Nat → Ev
deriving DecidableEq

/-- `if err != nil { errs = append(errs, err) }` -/
def appendErr (errs : List GoErr) (e : Option String) : List GoErr :=
  match e with
  | some err => errs ++ [GoErr.msg err]
  | none => errs

/-- `err = img.Read(); if err != nil { errs = append(errs, fmt.Errorf("could not read image: %w", err)) }` -/
def appendReadErr (errs : List GoErr) (img : DImage) : List GoErr :=
  match img.readErr with
  | some re => errs ++ [GoErr.wrap "could not read image: " (some (.msg re))]
  | none => errs

/-- The provider loop of `Detect`: invoke each provider in order, record its
error, and on the first non-nil image read it once and return it with the
joined errors; on exhaustion wrap all recorded errors in a summary error. -/
def detectGo (u : String) : List ProvResult → Nat → List GoErr → List Ev →
    Option DImage × Option GoErr × List Ev
  | [], _, errs, trace =>
    (none, some (.wrap ("unable to detect input for '" ++ u ++ "', err: ") (joinErrs errs)), trace)
  | p :: rest, i, errs, trace =>
    match p.img with
    | some img =>
      (some img, joinErrs (appendReadErr (appendErr errs p.err) img),
        trace ++ [Ev.provide i, Ev.read img.id])
    | none => detectGo u rest (i + 1) (appendErr errs p.err) (trace ++ [Ev.provide i])

/-- `Detect`: reject an empty provider list outright, else run the loop. -/
def Detect (u : String) (providers : List ProvResult) : Option DImage × Option GoErr × List Ev :=
  if providers.length = 0 then
    (none, some (.msg "no image providers specified, no image will be detected"), [])
  else detectGo u providers 0 [] []

/-- The errors the loop records for a list of providers that produced no image. -/
def provErrs (ps : List ProvResult) : List GoErr :=
  ps.filterMap fun p => p.err.map GoErr.msg

/-- The error recorded for the finalize (`Read()`) step of the returned image. -/
def readErrs (img : DImage) : List GoErr :=
  match img.readErr with
  | some re => [GoErr.wrap "could not read image: " (some (.msg re))]
  | none => []

lemma appendErr_eq (errs : List GoErr) (e : Option String) :
    appendErr errs e = errs ++ (e.map GoErr.msg).toList := by
  cases e <;> simp [appendErr]

lemma appendReadErr_eq (errs : List GoErr) (img : DImage) :
    appendReadErr errs img = errs ++ readErrs img := by
  unfold appendReadErr readErrs
  cases img.readErr <;> simp

/-- Providers that return a nil image are skipped, accumulating their errors
and one `provide` event each. -/
lemma detectGo_skip (u : String) : ∀ (pre rest : List ProvResult) (i : Nat)
    (errs : List GoErr) (trace : List Ev), (∀ p ∈ pre, p.img = none) →
    detectGo u (pre ++ rest) i errs trace
      = detectGo u rest (i + pre.length) (errs ++ provErrs pre)
          (trace ++ (List.range' i pre.length).map Ev.provide)
  | [], rest, i, errs, trace, _ => by simp [provErrs, List.range']
  | p :: pre, rest, i, errs, trace, h => by
    have hp : p.img = none := h p (List.mem_cons_self p pre)
    have hrest : ∀ q ∈ pre, q.img = none := fun q hq => h q (List.mem_cons_of_mem p hq)
    have step : detectGo u ((p :: pre) ++ rest) i errs trace
        = detectGo u (pre ++ rest) (i + 1) (appendErr errs p.err) (trace ++ [Ev.provide i]) := by
      simp only [List.cons_append, detectGo, hp]
      rfl
    rw [step,
      detectGo_skip u pre rest (i + 1) (appendErr errs p.err) (trace ++ [Ev.provide i]) hrest,
      appendErr_eq]
    have hprov : provErrs (p :: pre) = (p.err.map GoErr.msg).toList ++ provErrs pre := by
      unfold provErrs
      rw [List.filterMap_cons]
      cases p.err <;> simp
    simp [hprov, List.range'_succ, List.append_assoc, Nat.add_assoc, Nat.add_comm,
      Nat.add_left_comm]

/-- C1: when the providers before position `i` all return a nil artifact and
provider `i` returns one, `Detect` reads that artifact exactly once and
returns it (success, even when `Read()` errored) together with the joined
errors of providers `0..i` plus any read error; providers after `i` are
never invoked. -/
theorem detect_returns_first_artifact (u : String) (pre post : List ProvResult)
    (p : ProvResult) (img : DImage)
    (hpre : ∀ q ∈ pre, q.img = none) (himg : p.img = some img) :
    Detect u (pre ++ p :: post)
      = (some img,
         joinErrs (provErrs pre ++ (p.err.map GoErr.msg).toList ++ readErrs img),
         (List.range (pre.length + 1)).map Ev.provide ++ [Ev.read img.id]) := by
  have hne : ¬ (pre ++ p :: post).length = 0 := by simp
  rw [Detect, if_neg hne, detectGo_skip u pre (p :: post) 0 [] [] hpre]
  simp only [detectGo, himg, appendErr_eq, appendReadErr_eq]
  rw [List.range_succ, ← List.range_eq_range']
  simp [List.append_assoc]

/-- Witness for C1 on the spec's scenario: P1 fails, P2 yields an artifact,
P3 is never invoked; the aggregate holds only P1's error. -/
theorem detect_returns_first_artifact_witness :
    (∀ q ∈ [ProvResult.mk none (some "P1 failed")], q.img = none) ∧
    (ProvResult.mk (some ⟨7, none⟩) none).img = some ⟨7, none⟩ ∧
    Detect "img:tag" [⟨none, some "P1 failed"⟩, ⟨some ⟨7, none⟩, none⟩, ⟨some ⟨9, none⟩, some "P3"⟩]
      = (some ⟨7, none⟩, some (.joined [.msg "P1 failed"]),
         [Ev.provide 0, Ev.provide 1, Ev.read 7]) :=
  ⟨by decide, rfl, by
    have h := detect_returns_first_artifact "img:tag"
      [⟨none, some "P1 failed"⟩] [⟨some ⟨9, none⟩, some "P3"⟩]
      ⟨some ⟨7, none⟩, none⟩ ⟨7, none⟩ (by decide) rfl
    simpa [provErrs, readErrs, joinErrs] using h⟩

/-- C2: when every provider returns a nil artifact, `Detect` returns a nil
artifact and a single error wrapping the list of all non-nil per-provider
errors (providers returning nil/nil contribute none) under a summary naming
the unresolved input. -/
theorem detect_exhausted (u : String) (providers : List ProvResult)
    (hne : providers ≠ []) (hall : ∀ p ∈ providers, p.img = none) :
    Detect u providers
      = (none,
         some (.wrap ("unable to detect input for '" ++ u ++ "', err: ")
           (joinErrs (provErrs providers))),
         (List.range providers.length).map Ev.provide) := by
  rw [Detect, if_neg (by simpa using hne)]
  have h := detectGo_skip u providers [] 0 [] [] hall
  rw [List.append_nil] at h
  rw [h, ← List.range_eq_range']
  simp [detectGo]

/-- Witness for C2: three failing providers and one not-applicable provider;
all three errors are aggregated, the nil/nil provider contributes nothing. -/
theorem detect_exhausted_witness :
    ([⟨none, some "e1"⟩, ⟨none, none⟩, ⟨none, some "e2"⟩, ⟨none, some "e3"⟩] : List ProvResult) ≠ [] ∧
    (∀ p ∈ ([⟨none, some "e1"⟩, ⟨none, none⟩, ⟨none, some "e2"⟩, ⟨none, some "e3"⟩] : List ProvResult),
      p.img = none) ∧
    Detect "oci:dir" [⟨none, some "e1"⟩, ⟨none, none⟩, ⟨none, some "e2"⟩, ⟨none, some "e3"⟩]
      = (none,
         some (.wrap "unable to detect input for 'oci:dir', err: "
           (some (.joined [.msg "e1", .msg "e2", .msg "e3"]))),
         [Ev.provide 0, Ev.provide 1, Ev.provide 2, Ev.provide 3]) :=
  ⟨by decide, by decide, by
    have h := detect_exhausted "oci:dir"
      [⟨none, some "e1"⟩, ⟨none, none⟩, ⟨none, some "e2"⟩, ⟨none, some "e3"⟩]
      (by decide) (by decide)
    simpa [provErrs, joinErrs] using h⟩

/-- C10: `Detect` with an empty provider list invokes nothing and reads
nothing, returning a nil artifact with the distinct "no image providers
specified" error, which is not of the wrapped shape the exhaustion error
has. -/
theorem detect_no_providers :
    (∀ u : String, Detect u []
      = (none, some (.msg "no image providers specified, no image will be detected"), [])) ∧
    ∀ (pre : String) (e : Option GoErr),
      GoErr.msg "no image providers specified, no image will be detected" ≠ GoErr.wrap pre e := by
  refine ⟨fun u => rfl, fun pre e h => ?_⟩
  cases h

/-! ## Cleanup lifecycle (src/runtime/execution_context.go)

A registered cleanup callback is modelled by an identifier and its
behaviour when invoked: return nil, return an error, or panic.  `execute`
runs the callback and logs a returned error, letting a panic escape;
`withPanicRecovery` recovers a panic and logs it (Go `defer`/`recover`),
so it always returns.  `Cleanup` loops over the registered callbacks,
clears the list and returns nil; it reports the invocation order and the
log entries so the contract is statable. -/

inductive CbBehavior where
  | ok : CbBehavior
  | err : String → CbBehavior
  | panicked : String → CbBehavior
deriving DecidableEq

/-- `execute`: run the callback, logging a returned error; a panic escapes as
`.error`. -/
def executeCb : CbBehavior → Except String (List String)
  | .ok => .ok []
  | .err m => .ok ["error executing function: " ++ m]
  | .panicked m => .error m

/-- `withPanicRecovery`: run via `execute` under a deferred `recover`; a panic
is caught and logged, and the function always returns normally. -/
def withPanicRecovery (b : CbBehavior) : List String :=
  match executeCb b with
  | .ok logs => logs
  | .error m => ["recovered from panic due to: " ++ m]

structure ExecContextState where
  cleanups : List (Nat × CbBehavior)
deriving DecidableEq

/-- The `for _, cleanup := range p.cleanups` loop: each callback is invoked
through `withPanicRecovery`; the loop yields the invocation order and logs. -/
def cleanupLoop : List (Nat × CbBehavior) → List Nat × List String
  | [] => ([], [])
  | c :: rest =>
    let logs := withPanicRecovery c.2
    let (ids, ls) := cleanupLoop rest
    (c.1 :: ids, logs ++ ls)

/-- `Cleanup`: run the loop, clear the callback list, and return nil. -/
def Cleanup (s : ExecContextState) : (List Nat × List String) × ExecContextState × Option String :=
  (cleanupLoop s.cleanups, ⟨[]⟩, none)

lemma cleanupLoop_eq : ∀ l : List (Nat × CbBehavior),
    cleanupLoop l = (l.map Prod.fst, (l.map fun c => withPanicRecovery c.2).flatten)
  | [] => rfl
  | c :: rest => by
    simp only [cleanupLoop, cleanupLoop_eq rest, List.map_cons, List.flatten_cons]

/-- C8: `Cleanup` invokes every registered callback in registration order — a
panicking callback is recovered and logged and does not prevent the
remaining callbacks from running — then clears the callback list and
returns nil unconditionally. -/
theorem cleanup_runs_all (s : ExecContextState) :
    Cleanup s = ((s.cleanups.map Prod.fst,
        (s.cleanups.map fun c => withPanicRecovery c.2).flatten), ⟨[]⟩, none) ∧
    ∀ m : String, withPanicRecovery (.panicked m) = ["recovered from panic due to: " ++ m] := by
  refine ⟨?_, fun m => rfl⟩
  rw [Cleanup, cleanupLoop_eq]

/-- Witness for C8: a callback that errors, one that panics and one that
succeeds; all three run in order, the panic is logged, the list is cleared
and nil is returned. -/
theorem cleanup_runs_all_witness :
    Cleanup ⟨[(0, .err "rm failed"), (1, .panicked "boom"), (2, .ok)]⟩
      = (([0, 1, 2],
          ["error executing function: rm failed", "recovered from panic due to: boom"]),
         ⟨[]⟩, none) ∧
    withPanicRecovery (.panicked "boom") = ["recovered from panic due to: boom"] := by
  have h := cleanup_runs_all ⟨[(0, .err "rm failed"), (1, .panicked "boom"), (2, .ok)]⟩
  exact ⟨by rw [h.1]; rfl, h.2 "boom"⟩

/-! ## Platform resolution (src/pkg/image/containerd/daemon_provider.go)

`Platform` is the OS/architecture/variant triple.  `resolveIndex` is the
manifest-list branch of `resolveImage`: scan the index entries in listed
order, skip entries with no declared platform, and return the first entry
whose platform the matcher accepts, else the "no manifest found" error.
`validatePlatform` is the post-resolution check. -/

structure Platform where
  os : String
  architecture : String
  variant : String
deriving DecidableEq

/-- Modelled from the spec: `platforms.NewMatcher` of the external containerd
platforms library (not part of this repository's sources) is per the spec a
strict matcher — it accepts exactly when all three fields are equal, never a
merely compatible platform. -/
def platformMatch (req decl : Platform) : Bool :=
  req.os == decl.os && req.architecture == decl.architecture && req.variant == decl.variant

/-- Modelled from the spec: `image.Platform.String()` (defined outside the
given sources) renders the triple in the usual os/arch[/variant] form. -/
def platformString (p : Platform) : String :=
  p.os ++ "/" ++ p.architecture ++ (if p.variant = "" then "" else "/" ++ p.variant)

def goQuote (s : String) : String := "\"" ++ s ++ "\""

def noManifestErr (req : Platform) : String :=
  "no manifest found in manifest list for platform " ++ goQuote (platformString req)

/-- The manifest-list scan of `resolveImage`: entries with a nil platform are
skipped; the first matching entry is selected. -/
def resolveIndex (req : Platform) : List (Option Platform) → Except String Platform
  | [] => .error (noManifestErr req)
  | none :: rest => resolveIndex req rest
  | some pl :: rest =>
    if platformMatch req pl then .ok pl else resolveIndex req rest

/-- C6: the resolver scans index entries in listed order, skipping entries
with no declared platform, and selects the first entry whose platform
matches the request strictly in all three fields — in particular
linux/arm/v7 does not match linux/arm/v8 — and errs with the "no manifest
found" message when no entry matches. -/
theorem resolveIndex_first_strict_match (req : Platform) (entries : List (Option Platform)) :
    resolveIndex req entries
      = (match (entries.filterMap id).find? (fun pl => platformMatch req pl) with
         | some pl => .ok pl
         | none => .error (noManifestErr req)) ∧
    (∀ pl : Platform, platformMatch req pl = true ↔
      (req.os = pl.os ∧ req.architecture = pl.architecture ∧ req.variant = pl.variant)) ∧
    platformMatch ⟨"linux", "arm", "v7"⟩ ⟨"linux", "arm", "v8"⟩ = false := by
  refine ⟨?_, fun pl => by simp [platformMatch, and_assoc], by decide⟩
  induction entries with
  | nil => rfl
  | cons e rest ih =>
    cases e with
    | none => simpa [resolveIndex] using ih
    | some pl =>
      by_cases h : platformMatch req pl = true
      · simp [resolveIndex, h, List.find?]
      · simp only [Bool.not_eq_true] at h
        simpa [resolveIndex, h, List.find?] using ih

/-- `validatePlatform`: succeed when no platform was requested, otherwise fail
when the resolved platform is absent or any field differs, with the error
messages of the source (note the Variant branch's message text). -/
def validatePlatform (requested resolved : Option Platform) : Option String :=
  match requested with
  | none => none
  | some want =>
    match resolved with
    | none => some "image has no platform information (might be a manifest list)"
    | some pl =>
      if pl.os != want.os then
        some ("image has unexpected OS " ++ goQuote pl.os ++
          ", which differs from the user specified PS " ++ goQuote want.os)
      else if pl.architecture != want.architecture then
        some ("image has unexpected architecture " ++ goQuote pl.architecture ++
          ", which differs from the user specified architecture " ++ goQuote want.architecture)
      else if pl.variant != want.variant then
        some ("image has unexpected architecture " ++ goQuote pl.variant ++
          ", which differs from the user specified architecture " ++ goQuote want.variant)
      else none

/-- C7: the validation behaviour is as claimed (no request always passes; a
mismatch always fails), but on a Variant mismatch the error message names
"architecture", not the mismatched Variant field: requesting linux/arm/v7
against a resolved linux/arm/v8 yields a message speaking only of an
unexpected architecture. -/
theorem validatePlatform_variant_names_architecture :
    (∀ resolved, validatePlatform none resolved = none) ∧
    validatePlatform (some ⟨"linux", "arm", "v7"⟩) (some ⟨"linux", "arm", "v8"⟩)
      = some ("image has unexpected architecture \"v8\"" ++
          ", which differs from the user specified architecture \"v7\"") ∧
    validatePlatform (some ⟨"linux", "arm", "v7"⟩) none
      = some "image has no platform information (might be a manifest list)" := by
  exact ⟨fun resolved => rfl, rfl, rfl⟩

/-! ## Partiality of `isEqual` (src/tagged, `isEqual`/`HasValue`/`Join`/`Sort`
over non-comparable values)

Go interface values are modelled by `GoVal`: comparable dynamic types
(ints, strings) and the non-comparable `stereoscopeProvider` struct, whose
`provide` field has a function type.  Comparing two interface values with
`==` returns false when the dynamic types differ, compares the values when
the shared dynamic type is comparable, and panics when it is not; a panic
is an `Except.error`.  `HasValue`, `Join` and `Sort` are re-run in this
panic-propagating model. -/

inductive GoVal where
  | int : Int → GoVal
  | str : String → GoVal
  | provider : Nat → GoVal
deriving DecidableEq

/-- Go `a == b` on two `any` values: false across different dynamic types,
structural equality on a shared comparable type, runtime panic on a shared
non-comparable type (a struct with a function-typed field). -/
def goDynEq : GoVal → GoVal → Except String Bool
  | .int a, .int b => .ok (decide (a = b))
  | .str a, .str b => .ok (decide (a = b))
  | .provider _, .provider _ =>
    .error "runtime error: comparing uncomparable type stereoscope.stereoscopeProvider"
  | _, _ => .ok false

/-- `reflect.ValueOf(a) == reflect.ValueOf(b)` compares the reflect headers
(type pointer, data pointer, flags) of independently boxed values: false for
the values modelled here. -/
def reflectValueEq (_ _ : GoVal) : Bool := false

/-- `isEqual`: `a == b`, then the reflect fallback; the first comparison
panics before the fallback is ever reached when the type is not comparable. -/
def isEqual (a b : GoVal) : Except String Bool := do
  let e ← goDynEq a b
  if e then return true
  if reflectValueEq a b then return true
  return false

/-- The inner loop of `HasValue` for one element of the set. -/
def hasValueInner (x : GoVal) : List GoVal → Except String Bool
  | [] => .ok false
  | v :: rest => do
    let e ← isEqual x v
    if e then return true else hasValueInner x rest

/-- `Values.HasValue` in the panic-propagating model. -/
def hasValueGo : Values GoVal → List GoVal → Except String Bool
  | [], _ => .ok false
  | tagged :: rest, vals => do
    let e ← hasValueInner tagged.value vals
    if e then return true else hasValueGo rest vals

/-- The append loop of `Values.Join` in the panic-propagating model. -/
def joinLoop (t : Values GoVal) : List (TaggedValue GoVal) → Except String (Values GoVal)
  | [] => .ok []
  | v :: rest => do
    let hv ← hasValueGo t [v.value]
    let tail ← joinLoop t rest
    if hv then return tail else return v :: tail

/-- `Values.Join` in the panic-propagating model. -/
def joinGo (t : Values GoVal) (taggedValues : List (TaggedValue GoVal)) :
    Except String (Values GoVal) :=
  if taggedValues.length = 0 then .ok t
  else do
    let extra ← joinLoop t taggedValues
    return t ++ extra

/-- One tag pass of `Values.Sort` in the panic-propagating model. -/
def sortPassGo (tag : String) : Values GoVal → Values GoVal → Except String (Values GoVal)
  | [], out => .ok out
  | existing :: rest, out =>
    if existing.hasTag [tag] then do
      let hv ← hasValueGo out [existing.value]
      if hv then sortPassGo tag rest out else sortPassGo tag rest (out ++ [existing])
    else sortPassGo tag rest out

/-- The tag loop of `Values.Sort` in the panic-propagating model. -/
def sortTagsGo (t : Values GoVal) : List String → Values GoVal → Except String (Values GoVal)
  | [], out => .ok out
  | tag :: rest, out => do
    let out2 ← sortPassGo tag t out
    sortTagsGo t rest out2

/-- `Values.Sort` in the panic-propagating model. -/
def sortGo (t : Values GoVal) (tags : List String) : Except String (Values GoVal) :=
  if tags.length = 0 then .ok t
  else do
    let placed ← sortTagsGo t tags []
    return placed ++ t.filter fun v => !(v.hasTag tags)

/-- C9: `isEqual` is not total: on any two `stereoscopeProvider` values the
comparison `a == b` panics instead of returning false, so `HasValue`,
`Join` and `Sort` over a collection of such values panic rather than
deduplicate, while comparable values compare without panicking. -/
theorem isEqual_not_total :
    (∀ i j : Nat, isEqual (.provider i) (.provider j)
      = .error "runtime error: comparing uncomparable type stereoscope.stereoscopeProvider") ∧
    hasValueGo [⟨.provider 0, ["daemon"]⟩] [.provider 0]
      = .error "runtime error: comparing uncomparable type stereoscope.stereoscopeProvider" ∧
    joinGo [⟨.provider 0, ["daemon"]⟩] [⟨.provider 0, ["daemon"]⟩]
      = .error "runtime error: comparing uncomparable type stereoscope.stereoscopeProvider" ∧
    sortGo [⟨.provider 0, ["daemon"]⟩, ⟨.provider 1, ["registry", "daemon"]⟩] ["daemon"]
      = .error "runtime error: comparing uncomparable type stereoscope.stereoscopeProvider" ∧
    isEqual (.int 1) (.int 2) = .ok false ∧
    isEqual (.int 1) (.str "one") = .ok false := by
  exact ⟨fun i j => rfl, rfl, rfl, rfl, rfl, rfl⟩

/-! ## Sort (src/tagged, `Values.Sort`): the reordering contract

`Values.sortSpecTags`/`Values.sortSpec` below are written from the spec's
words — placement tracked by item identity — to be compared with the
source-translated `Values.sort`, whose placement dedup is by value
equality (`HasValue`).  The two agree exactly when the collection's values
are pairwise distinct; with duplicated values the source drops items. -/

/-- The Sort behaviour the spec describes, placement loop: for each tag in
order, append the not-yet-placed items (item identity) carrying it, in
original order. -/
def Values.sortSpecTags {T : Type} [DecidableEq T] (t : Values T) :
    List String → Values T → Values T
  | [], out => out
  | tag :: rest, out =>
    Values.sortSpecTags t rest (out ++ t.filter fun v => v.hasTag [tag] && !(decide (v ∈ out)))

/-- The Sort behaviour the spec describes: the placement loop over the
requested tags, then the items carrying none of the requested tags in
original order. -/
def Values.sortSpec {T : Type} [DecidableEq T] (t : Values T) (tags : List String) : Values T :=
  if tags.length = 0 then t
  else Values.sortSpecTags t tags [] ++ t.filter fun v => !(v.hasTag tags)

lemma hasTag_cons {T : Type} (v : TaggedValue T) (a : String) (l : List String) :
    v.hasTag (a :: l) = (v.hasTag [a] || v.hasTag l) := by
  simp [TaggedValue.hasTag]

lemma hasTag_congr {T : Type} (v : TaggedValue T) {l₁ l₂ : List String}
    (h : ∀ x, x ∈ l₁ ↔ x ∈ l₂) : v.hasTag l₁ = v.hasTag l₂ := by
  rw [Bool.eq_iff_iff]
  simp only [TaggedValue.hasTag, List.any_eq_true]
  constructor
  · rintro ⟨x, hx, hh⟩; exact ⟨x, (h x).mp hx, hh⟩
  · rintro ⟨x, hx, hh⟩; exact ⟨x, (h x).mpr hx, hh⟩

/-- Under pairwise-distinct values, `HasValue` against a sub-collection is
exactly item membership. -/
lemma hasValue_eq_mem {T : Type} [DecidableEq T] (t : Values T)
    (hnd : (Values.Collect t).Nodup) (out : Values T) (hsub : ∀ u ∈ out, u ∈ t)
    (v : TaggedValue T) (hv : v ∈ t) :
    out.hasValue [v.value] = decide (v ∈ out) := by
  rw [Bool.eq_iff_iff]
  simp only [Values.hasValue, List.any_eq_true, List.mem_singleton, decide_eq_true_eq]
  constructor
  · rintro ⟨u, hu, x, rfl, hux⟩
    exact (List.inj_on_of_nodup_map (by simpa [Values.Collect] using hnd)
      (hsub u hu) hv hux) ▸ hu
  · intro hvo
    exact ⟨v, hvo, v.value, rfl, rfl⟩

/-- Closed form of one `sort` pass under pairwise-distinct values. -/
lemma sortPass_eq {T : Type} [DecidableEq T] (t : Values T)
    (hnd : (Values.Collect t).Nodup) (tag : String) :
    ∀ (rest out : Values T), rest.Sublist t → (∀ u ∈ out, u ∈ t) →
      Values.sortPass tag rest out
        = out ++ rest.filter fun v => v.hasTag [tag] && !(decide (v ∈ out))
  | [], out, _, _ => by simp [Values.sortPass]
  | v :: rest, out, hsl, hout => by
    have hvt : v ∈ t := hsl.subset (List.mem_cons_self v rest)
    have hsl' : rest.Sublist t := (List.sublist_cons_self v rest).trans hsl
    have hvnotin : v ∉ rest := by
      have hnodup : (v :: rest).Nodup :=
        hsl.nodup (List.Nodup.of_map _ (by simpa [Values.Collect] using hnd))
      exact (List.nodup_cons.mp hnodup).1
    cases htag : v.hasTag [tag] with
    | false =>
      rw [show Values.sortPass tag (v :: rest) out = Values.sortPass tag rest out from by
        simp [Values.sortPass, htag]]
      rw [sortPass_eq t hnd tag rest out hsl' hout]
      congr 1
      rw [List.filter_cons]
      simp [htag]
    | true =>
      have hv : Values.hasValue out [v.value] = decide (v ∈ out) :=
        hasValue_eq_mem t hnd out hout v hvt
      by_cases hmem : v ∈ out
      · rw [show Values.sortPass tag (v :: rest) out = Values.sortPass tag rest out from by
          simp [Values.sortPass, htag, hv, hmem]]
        rw [sortPass_eq t hnd tag rest out hsl' hout]
        congr 1
        rw [List.filter_cons]
        simp [htag, hmem]
      · rw [show Values.sortPass tag (v :: rest) out = Values.sortPass tag rest (out ++ [v]) from by
          simp [Values.sortPass, htag, hv, hmem]]
        rw [sortPass_eq t hnd tag rest (out ++ [v]) hsl' (by
          intro u hu
          rcases List.mem_append.mp hu with h | h
          · exact hout u h
          · rw [List.mem_singleton.mp h]; exact hvt)]
        have hfc : (rest.filter fun w => w.hasTag [tag] && !(decide (w ∈ out ++ [v])))
            = rest.filter fun w => w.hasTag [tag] && !(decide (w ∈ out)) := by
          refine List.filter_congr fun w hw => ?_
          have hwv : ¬ w = v := fun hwv => hvnotin (hwv ▸ hw)
          have hiff : (w ∈ out ++ [v]) ↔ w ∈ out := by simp [hwv]
          rw [decide_eq_decide.mpr hiff]
        rw [hfc, List.filter_cons]
        have hptrue : (v.hasTag [tag] && !(decide (v ∈ out))) = true := by
          simp [htag, hmem]
        rw [if_pos hptrue]
        simp

/-- The source `sort` tag loop equals the spec's placement loop under
pairwise-distinct values. -/
lemma sortTags_eq_spec {T : Type} [DecidableEq T] (t : Values T)
    (hnd : (Values.Collect t).Nodup) :
    ∀ (tags : List String) (out : Values T), (∀ u ∈ out, u ∈ t) →
      Values.sortTags t tags out = Values.sortSpecTags t tags out
  | [], _, _ => rfl
  | tag :: rest, out, hout => by
    simp only [Values.sortTags, Values.sortSpecTags]
    rw [sortPass_eq t hnd tag t out (List.Sublist.refl t) hout]
    exact sortTags_eq_spec t hnd rest _ (by
      intro u hu
      rcases List.mem_append.mp hu with h | h
      · exact hout u h
      · exact (List.mem_filter.mp h).1)

lemma mem_sortSpecTags {T : Type} [DecidableEq T] (t : Values T) :
    ∀ (tags : List String) (out : Values T) (u : TaggedValue T),
      u ∈ Values.sortSpecTags t tags out ↔ (u ∈ out ∨ (u ∈ t ∧ u.hasTag tags = true))
  | [], out, u => by simp [Values.sortSpecTags, TaggedValue.hasTag]
  | tag :: rest, out, u => by
    simp only [Values.sortSpecTags]
    rw [mem_sortSpecTags t rest _ u, List.mem_append, List.mem_filter, hasTag_cons u tag rest]
    simp only [Bool.and_eq_true, Bool.not_eq_true', decide_eq_false_iff_not, Bool.or_eq_true]
    by_cases hout : u ∈ out <;> by_cases hut : u ∈ t <;> simp [hout, hut]

lemma nodup_sortSpecTags {T : Type} [DecidableEq T] (t : Values T) (hndt : t.Nodup) :
    ∀ (tags : List String) (out : Values T), out.Nodup →
      (Values.sortSpecTags t tags out).Nodup
  | [], _, hout => hout
  | tag :: rest, out, hout => by
    apply nodup_sortSpecTags t hndt rest
    refine List.Nodup.append hout (hndt.filter _) ?_
    intro a ha haf
    have h2 := (List.mem_filter.mp haf).2
    rw [Bool.and_eq_true, Bool.not_eq_true', decide_eq_false_iff_not] at h2
    exact h2.2 ha

lemma sortSpec_perm {T : Type} [DecidableEq T] (t : Values T)
    (hnd : (Values.Collect t).Nodup) (tags : List String) :
    (Values.sortSpec t tags).Perm t := by
  unfold Values.sortSpec
  by_cases h0 : tags.length = 0
  · simp [h0]
  · rw [if_neg h0]
    have hndt : t.Nodup := List.Nodup.of_map _ (by simpa [Values.Collect] using hnd)
    have hA : (Values.sortSpecTags t tags []).Perm (t.filter fun v => v.hasTag tags) := by
      rw [List.perm_ext_iff_of_nodup
        (nodup_sortSpecTags t hndt tags [] List.nodup_nil) (hndt.filter _)]
      intro u
      rw [mem_sortSpecTags, List.mem_filter]
      simp
    exact (hA.append_right _).trans (List.filter_append_perm _ t)

lemma sortSpecTags_append {T : Type} [DecidableEq T] (t : Values T) :
    ∀ (a b : List String) (out : Values T),
      Values.sortSpecTags t (a ++ b) out = Values.sortSpecTags t b (Values.sortSpecTags t a out)
  | [], _, _ => rfl
  | tag :: a, b, out => by
    simp only [List.cons_append, Values.sortSpecTags]
    exact sortSpecTags_append t a b _

lemma sortSpecTags_absorb {T : Type} [DecidableEq T] (t : Values T) (tag : String)
    (post : List String) (out : Values T)
    (h : ∀ v ∈ t, v.hasTag [tag] = true → v ∈ out) :
    Values.sortSpecTags t (tag :: post) out = Values.sortSpecTags t post out := by
  have hnil : (t.filter fun v => v.hasTag [tag] && !(decide (v ∈ out))) = [] := by
    rw [List.filter_eq_nil_iff]
    intro a ha hp
    rw [Bool.and_eq_true] at hp
    have h2 := hp.2
    rw [Bool.not_eq_true', decide_eq_false_iff_not] at h2
    exact h2 (h a ha hp.1)
  simp only [Values.sortSpecTags, hnil, List.append_nil]

/-- C5 counterexample: two items with equal values, each carrying one of the
requested tags; `sort` conflates them by value and drops one entirely, so
the result is not a reordering of the collection. -/
theorem sort_not_a_reordering :
    (Values.sort ([⟨1, ["a"]⟩, ⟨1, ["b"]⟩] : Values Nat) ["a", "b"]).length = 1 ∧
    ([⟨1, ["a"]⟩, ⟨1, ["b"]⟩] : Values Nat).length = 2 := by
  decide

/-- C5 (amended with pairwise-distinct values): `sort` equals the reference
reordering the claim describes — for each requested tag in order the
not-yet-placed items carrying it appear next in original relative order,
no item twice, the untagged items appended afterward in original order —
it is a permutation of the collection, and a tag occurrence repeating an
earlier one has no effect. -/
theorem sort_reorders {T : Type} [DecidableEq T] (t : Values T) (tags : List String)
    (hnd : (Values.Collect t).Nodup) :
    Values.sort t tags = Values.sortSpec t tags ∧
    (Values.sort t tags).Perm t ∧
    ∀ (pre : List String) (tag : String) (post : List String), tag ∈ pre →
      Values.sort t (pre ++ tag :: post) = Values.sort t (pre ++ post) := by
  have hmain : ∀ tg : List String, Values.sort t tg = Values.sortSpec t tg := by
    intro tg
    unfold Values.sort Values.sortSpec
    by_cases h0 : tg.length = 0
    · simp [h0]
    · rw [if_neg h0, if_neg h0]
      congr 1
      exact sortTags_eq_spec t hnd tg [] (by intro u hu; cases hu)
  refine ⟨hmain tags, ?_, ?_⟩
  · rw [hmain tags]; exact sortSpec_perm t hnd tags
  · intro pre tag post hpre
    rw [hmain _, hmain _]
    unfold Values.sortSpec
    have hne1 : ¬ (pre ++ tag :: post).length = 0 := by simp
    have hne2 : ¬ (pre ++ post).length = 0 := by
      intro hc
      rw [List.length_append, Nat.add_eq_zero] at hc
      exact List.ne_nil_of_mem hpre (List.length_eq_zero.mp hc.1)
    rw [if_neg hne1, if_neg hne2]
    have hmemiff : ∀ x, x ∈ pre ++ tag :: post ↔ x ∈ pre ++ post := by
      intro x
      simp only [List.mem_append, List.mem_cons]
      constructor
      · rintro (h | rfl | h)
        exacts [Or.inl h, Or.inl hpre, Or.inr h]
      · rintro (h | h)
        exacts [Or.inl h, Or.inr (Or.inr h)]
    congr 1
    · rw [sortSpecTags_append t pre (tag :: post), sortSpecTags_append t pre post]
      refine sortSpecTags_absorb t tag post _ (fun v hv htag => ?_)
      rw [mem_sortSpecTags]
      exact Or.inr ⟨hv, hasTag_of_mem v tag pre hpre htag⟩
    · exact List.filter_congr fun v _ => by rw [hasTag_congr v hmemiff]

/-- Witness for C5 on a distinct-valued collection. -/
theorem sort_reorders_witness :
    (Values.Collect ([⟨1, ["a"]⟩, ⟨2, ["b"]⟩, ⟨3, ["a", "b"]⟩] : Values Nat)).Nodup ∧
    (Values.sort ([⟨1, ["a"]⟩, ⟨2, ["b"]⟩, ⟨3, ["a", "b"]⟩] : Values Nat) ["b", "a"]
        = Values.sortSpec [⟨1, ["a"]⟩, ⟨2, ["b"]⟩, ⟨3, ["a", "b"]⟩] ["b", "a"] ∧
      (Values.sort ([⟨1, ["a"]⟩, ⟨2, ["b"]⟩, ⟨3, ["a", "b"]⟩] : Values Nat) ["b", "a"]).Perm
        [⟨1, ["a"]⟩, ⟨2, ["b"]⟩, ⟨3, ["a", "b"]⟩] ∧
      ∀ (pre : List String) (tag : String) (post : List String), tag ∈ pre →
        Values.sort ([⟨1, ["a"]⟩, ⟨2, ["b"]⟩, ⟨3, ["a", "b"]⟩] : Values Nat) (pre ++ tag :: post)
          = Values.sort ([⟨1, ["a"]⟩, ⟨2, ["b"]⟩, ⟨3, ["a", "b"]⟩] : Values Nat) (pre ++ post)) :=
  ⟨by decide, sort_reorders [⟨1, ["a"]⟩, ⟨2, ["b"]⟩, ⟨3, ["a", "b"]⟩] ["b", "a"] (by decide)⟩

end Stereoscope
